import Mathlib

/-!
Verification of the MEXC API client (`mexc_client.py`): request signing
(`_generate_signature`, `_send_request`), transport error handling, the
range paginator (`fetch_historical_data`) and the endpoint wrappers.

Shallow embedding conventions:
* `datetime` values are modelled as `Int` microseconds since the epoch
  (Python `datetime` has microsecond resolution); `timedelta(days=d)` is
  `d * dayUs` microseconds.
* Python `dict`s of request parameters are association lists in insertion
  order; dict keys are unique, which theorems assume via `Nodup` where it
  matters.
* The HMAC-SHA256 hex digest is an opaque parameter `hmacHex`: every
  property proved here holds for an arbitrary digest function, so nothing
  depends on the internals of SHA-256.
* Side effects (HTTP, printing, sleeping) are modelled by explicit data:
  the transport outcome is an input, emitted warnings are counted, and the
  paginator returns the trace of chunk bounds it passed to the fetch
  operation.
-/

namespace MexcClient

/-- A scalar request-parameter value: Python `str` or `int`.
The endpoint wrappers only ever store strings and integers. -/
inductive PVal where
  | s (v : String)
  | i (v : Int)
deriving DecidableEq, Repr

/-- Python `str()` applied to a parameter value (as `urlencode` does). -/
def pyStr : PVal → String
  | .s v => v
  | .i v => toString v

/-- The characters `urllib.parse.quote` never encodes:
ASCII letters, digits and `_.-~` (Python's `ALWAYS_SAFE`, with the default
empty `safe` set used by `urlencode`). -/
def isUrlSafe (c : Char) : Bool :=
  c.isAlphanum || c = '_' || c = '.' || c = '-' || c = '~'

/-- Uppercase hexadecimal digit, as produced by Python's percent-encoding. -/
def hexDigitChar (n : Nat) : Char :=
  if n < 10 then Char.ofNat (48 + n) else Char.ofNat (55 + n)

/-- `%XX` encoding of one byte. -/
def percentByte (b : Nat) : String :=
  String.mk ['%', hexDigitChar (b / 16), hexDigitChar (b % 16)]

/-- UTF-8 bytes of one character (Python encodes non-safe characters as
UTF-8 before percent-encoding). -/
def utf8Bytes (c : Char) : List Nat :=
  let n := c.toNat
  if n < 0x80 then [n]
  else if n < 0x800 then [0xC0 + n / 64, 0x80 + n % 64]
  else if n < 0x10000 then [0xE0 + n / 4096, 0x80 + n / 64 % 64, 0x80 + n % 64]
  else [0xF0 + n / 262144, 0x80 + n / 4096 % 64, 0x80 + n / 64 % 64, 0x80 + n % 64]

/-- `urllib.parse.quote_plus` on one character: safe characters kept,
space becomes `+`, everything else percent-encoded byte-wise. -/
def quotePlusChar (c : Char) : String :=
  if isUrlSafe c then String.singleton c
  else if c = ' ' then "+"
  else String.join ((utf8Bytes c).map percentByte)

/-- `urllib.parse.quote_plus` with the default empty `safe` set, as used by
`urlencode` for both keys and values. -/
def quotePlus (s : String) : String :=
  String.join (s.data.map quotePlusChar)

/-- One `key=value` pair of the encoded query string. -/
def encodePair (p : String × PVal) : String :=
  quotePlus p.1 ++ "=" ++ quotePlus (pyStr p.2)

/-- `urllib.parse.urlencode`: `&`-joined `key=value` pairs, in the order of
the association list (Python iterates the dict in insertion order). -/
def urlencode : List (String × PVal) → String
  | [] => ""
  | [p] => encodePair p
  | p :: q :: ps => encodePair p ++ "&" ++ urlencode (q :: ps)

/-- Python dict assignment `d[k] = v`: replace the value in place if the key
is present (keeping its position), otherwise append the new binding. -/
def setParam (l : List (String × PVal)) (k : String) (v : PVal) : List (String × PVal) :=
  if l.any (fun p => p.1 == k) then
    l.map (fun p => if p.1 == k then (k, v) else p)
  else l ++ [(k, v)]

/-- The key order used by `sorted(params.items())`: lexicographic on keys.
Python compares `(key, value)` tuples, but for a dict the keys are distinct
so the value component is never reached. -/
def keyLe (a b : String × PVal) : Prop := a.1 ≤ b.1

instance : DecidableRel keyLe := fun a b => inferInstanceAs (Decidable (a.1 ≤ b.1))

instance : IsTotal (String × PVal) keyLe := ⟨fun a b => le_total a.1 b.1⟩

instance : IsTrans (String × PVal) keyLe := ⟨fun _ _ _ h h' => le_trans h h'⟩

/-- `sorted(params.items())` as a stable sort by key.  On lists with
distinct keys (every Python dict) any stable sort by key agrees with
Python's `sorted`. -/
def sortParams (l : List (String × PVal)) : List (String × PVal) :=
  l.insertionSort keyLe

/-- `_generate_signature`: HMAC-SHA256 hex digest of the URL-encoded
parameter string under the secret key.  `hmacHex secret msg` stands for
`hmac.new(secret, msg, sha256).hexdigest()`. -/
def generateSignature (hmacHex : String → String → String) (secret : String)
    (params : List (String × PVal)) : String :=
  hmacHex secret (urlencode params)

/-- The parameter-preparation phase of `_send_request`, given the clock
reading `nowMs` (`int(time.time() * 1000)`): inject `timestamp`, sort, and
append the signature computed over the sorted encoding. -/
def sendRequestPrepared (hmacHex : String → String → String) (secret : String)
    (nowMs : Int) (params : List (String × PVal)) : List (String × PVal) :=
  let sortedParams := sortParams (setParam params "timestamp" (.i nowMs))
  setParam sortedParams "signature" (.s (generateSignature hmacHex secret sortedParams))

/-- The canonical query string `_generate_signature` is applied to inside
`_send_request`: the URL-encoding of the sorted parameters including the
injected timestamp. -/
def signedQueryString (nowMs : Int) (params : List (String × PVal)) : String :=
  urlencode (sortParams (setParam params "timestamp" (.i nowMs)))

/-- `BASE_URL`. -/
def baseUrl : String := "https://api.mexc.com"

/-- The full URL built by `_send_request`:
`f"{self.BASE_URL}{endpoint}?{urlencode(sorted_params)}"`. -/
def requestUrl (hmacHex : String → String → String) (secret : String)
    (endpoint : String) (nowMs : Int) (params : List (String × PVal)) : String :=
  baseUrl ++ endpoint ++ "?" ++ urlencode (sendRequestPrepared hmacHex secret nowMs params)

/-- The contents of the caller-supplied `params` dict after `_send_request`
returns: the code executes `params['timestamp'] = ...` on the caller's
dict, while the signature is added only to the fresh `sorted_params` copy. -/
def callerParamsAfter (nowMs : Int) (params : List (String × PVal)) : List (String × PVal) :=
  setParam params "timestamp" (.i nowMs)

/-- Outcome of `requests.request` + `response.raise_for_status()` +
`response.json()` for one call, with `J` the type of parsed JSON bodies:
`ok (some j)` is a 2xx response with body `j`; `ok none` is a 2xx response
whose body fails to parse (`response.json()` raises, caught by the generic
`except`); `httpError` is a non-2xx status (`raise_for_status` raises
`HTTPError`); `exn` is any other transport-level exception. -/
inductive HttpOutcome (J : Type) where
  | ok (body : Option J)
  | httpError
  | exn

/-- The `try`/`except` tail of `_send_request`: the returned value paired
with whether an error message was printed.  Every failure path is caught,
logged and resolved to `none`. -/
def sendRequestOutcome {J : Type} : HttpOutcome J → Option J × Bool
  | .ok (some j) => (some j, false)
  | .ok none => (none, true)
  | .httpError => (none, true)
  | .exn => (none, true)

/-- `_send_request` end to end: build the signed URL, run the transport on
it, and normalize the outcome.  `transport` maps the transmitted URL to the
HTTP outcome. -/
def sendRequest {J : Type} (transport : String → HttpOutcome J)
    (hmacHex : String → String → String) (secret : String) (endpoint : String)
    (nowMs : Int) (params : List (String × PVal)) : Option J × Bool :=
  sendRequestOutcome (transport (requestUrl hmacHex secret endpoint nowMs params))

/-! ### The range paginator `fetch_historical_data` -/

/-- Microseconds per day: `timedelta(days=d)` is `d * dayUs` microseconds. -/
def dayUs : Int := 86400000000

/-- `int(dt.timestamp() * 1000)` for a datetime of `t` microseconds since
the epoch: milliseconds since the epoch. -/
def usToMs (t : Int) : Int := t / 1000

/-- A JSON field value as inspected by `fetch_historical_data`: either a
list of records (`isinstance(..., list)` holds) or anything else. -/
inductive JField (R : Type) where
  | arr (rs : List R)
  | nonArr
deriving DecidableEq

/-- A parsed chunk response: a raw JSON list of records, or a JSON object
(dict in insertion order, distinct keys) whose fields are inspected for a
`rows` list. -/
inductive Page (R : Type) where
  | plist (rs : List R)
  | obj (fields : List (String × JField R))
deriving DecidableEq

/-- Python truthiness of a response (`if response_data:`): a list or dict
is truthy iff non-empty. -/
def pageTruthy {R : Type} : Page R → Bool
  | .plist rs => !rs.isEmpty
  | .obj fs => !fs.isEmpty

/-- `response_data.get(k)` on an object. -/
def objGet {R : Type} (fs : List (String × JField R)) (k : String) : Option (JField R) :=
  (fs.find? (fun p => p.1 == k)).map Prod.snd

/-- The response-normalization block of the loop body (lines 111-117):
given the fetch operation's return value (`none` models a failed call that
returned `None`), produce the records extended onto `all_results` and
whether the unexpected-format warning was printed. -/
def processResponse {R : Type} : Option (Page R) → List R × Bool
  | none => ([], false)
  | some p =>
    if pageTruthy p then
      match p with
      | .plist rs => (rs, false)
      | .obj fs =>
        match objGet fs "rows" with
        | some (.arr rs) => (rs, false)
        | _ => ([], true)
    else ([], false)

/-- The `while current_start < end_date` loop of `fetch_historical_data`,
with explicit fuel: `none` means the fuel was exhausted before the loop
condition failed (i.e. the loop would still be running).  The result
carries the accumulated `all_results`, the trace of `(current_start,
chunk_end)` datetime pairs for each fetch invocation, and the number of
format warnings printed.  The fetch operation `f` receives the chunk
bounds converted to millisecond timestamps, exactly as in the source. -/
def fetchLoop {R : Type} (f : Int → Int → Option (Page R)) (span e : Int) :
    Nat → Int → List R → List (Int × Int) → Nat → Option (List R × List (Int × Int) × Nat)
  | 0, cur, acc, trace, warns =>
    if cur < e then none else some (acc, trace, warns)
  | fuel + 1, cur, acc, trace, warns =>
    if cur < e then
      let chunkEnd := min (cur + span) e
      let resp := processResponse (f (usToMs cur) (usToMs chunkEnd))
      fetchLoop f span e fuel (cur + span) (acc ++ resp.1)
        (trace ++ [(cur, chunkEnd)]) (warns + (if resp.2 then 1 else 0))
    else some (acc, trace, warns)

/-- `fetch_historical_data(f, max_days_per_request, start_date, end_date)`.
The fuel `(e - s).toNat` is enough for the loop to finish whenever
`max_days_per_request ≥ 1` (the cursor then advances by at least one full
day per iteration), so `none` only arises on inputs where the Python loop
does not terminate. -/
def fetchHistoricalData {R : Type} (f : Int → Int → Option (Page R)) (maxDays s e : Int) :
    Option (List R × List (Int × Int) × Nat) :=
  fetchLoop f (maxDays * dayUs) e (e - s).toNat s [] [] 0

/-- Closed form of the number of loop iterations: `⌈(e - cur) / span⌉`
computed in `Nat` (`0` when the range is empty or the stride nonpositive). -/
def numChunks (span e cur : Int) : Nat :=
  if 0 < span then ((e - cur).toNat + span.toNat - 1) / span.toNat else 0

/-- Closed form of the chunk trace the loop produces: the `i`-th fetched
chunk is `[cur + i*span, min (cur + (i+1)*span) e)`. -/
def chunkSpec (span e cur : Int) : List (Int × Int) :=
  (List.range (numChunks span e cur)).map
    (fun i : Nat => (cur + (i : Int) * span, min (cur + ((i : Int) + 1) * span) e))

/-- The records contributed by each chunk of `chunkSpec`, in chunk order
then intra-page order. -/
def chunkRecords {R : Type} (f : Int → Int → Option (Page R)) (span e cur : Int) : List R :=
  (chunkSpec span e cur).flatMap
    (fun c => (processResponse (f (usToMs c.1) (usToMs c.2))).1)

/-- The number of format warnings printed across the chunks of `chunkSpec`. -/
def chunkWarns {R : Type} (f : Int → Int → Option (Page R)) (span e cur : Int) : Nat :=
  ((chunkSpec span e cur).filter
    (fun c => (processResponse (f (usToMs c.1) (usToMs c.2))).2)).length

/-! ### Endpoint wrappers -/

/-- An optional string argument added under Python truthiness
(`if coin: params['coin'] = coin`): omitted when absent or empty. -/
def optStr (k : String) : Option String → List (String × PVal)
  | none => []
  | some v => if v.isEmpty then [] else [(k, .s v)]

/-- An optional integer argument added under Python truthiness
(`if start_time: params['startTime'] = start_time`): omitted when absent
or zero. -/
def optInt (k : String) : Option Int → List (String × PVal)
  | none => []
  | some v => if v == 0 then [] else [(k, .i v)]

/-- The params dict built by `get_deposit_history`. -/
def getDepositHistoryParams (coin : Option String) (startTime endTime : Option Int) :
    List (String × PVal) :=
  optStr "coin" coin ++ optInt "startTime" startTime ++ optInt "endTime" endTime

/-- The params dict built by `get_withdrawal_history`. -/
def getWithdrawalHistoryParams (coin : Option String) (startTime endTime : Option Int) :
    List (String × PVal) :=
  optStr "coin" coin ++ optInt "startTime" startTime ++ optInt "endTime" endTime

/-- The params dict built by `get_universal_transfer_history`. -/
def getUniversalTransferHistoryParams (startTime endTime : Option Int)
    (fromAccountType toAccountType : Option String) : List (String × PVal) :=
  optInt "startTime" startTime ++ optInt "endTime" endTime ++
    optStr "fromAccountType" fromAccountType ++ optStr "toAccountType" toAccountType

/-- The params dict built by `get_sub_account_assets`. -/
def getSubAccountAssetsParams (subAccount accountType : String) : List (String × PVal) :=
  [("subAccount", .s subAccount), ("accountType", .s accountType)]

/-- The params dict built by `get_all_orders`. -/
def getAllOrdersParams (symbol : String) (startTime endTime : Option Int) (limit : Int) :
    List (String × PVal) :=
  [("symbol", .s symbol), ("limit", .i limit)] ++
    optInt "startTime" startTime ++ optInt "endTime" endTime

/-- Whether a params dict contains a binding for key `k`. -/
def hasKey (l : List (String × PVal)) (k : String) : Bool :=
  l.any (fun p => p.1 == k)

/-- Python truthiness of an optional string argument. -/
def strTruthy : Option String → Bool
  | none => false
  | some v => !v.isEmpty

/-- Python truthiness of an optional integer argument. -/
def intTruthy : Option Int → Bool
  | none => false
  | some v => !(v == 0)

/-! ### Helper lemmas about parameter dictionaries and sorting -/

theorem perm_any {α : Type} {l₁ l₂ : List α} (h : l₁.Perm l₂) (p : α → Bool) :
    l₁.any p = l₂.any p := by
  refine Bool.eq_iff_iff.mpr ?_
  simp only [List.any_eq_true]
  exact ⟨fun ⟨x, hx, hp⟩ => ⟨x, h.mem_iff.mp hx, hp⟩,
    fun ⟨x, hx, hp⟩ => ⟨x, h.mem_iff.mpr hx, hp⟩⟩

theorem setParam_perm {l₁ l₂ : List (String × PVal)} (h : l₁.Perm l₂) (k : String) (v : PVal) :
    (setParam l₁ k v).Perm (setParam l₂ k v) := by
  unfold setParam
  rw [perm_any h]
  split
  · exact h.map _
  · exact h.append_right _

theorem nodupKeys_setParam {l : List (String × PVal)} (k : String) (v : PVal)
    (h : (l.map Prod.fst).Nodup) : ((setParam l k v).map Prod.fst).Nodup := by
  unfold setParam
  split
  · rw [List.map_map]
    have : ∀ p ∈ l, (Prod.fst ∘ fun p : String × PVal => if p.1 == k then (k, v) else p) p
        = Prod.fst p := by
      intro p _
      by_cases hp : p.1 = k
      · simp [hp]
      · simp [hp]
    rw [List.map_congr_left this]
    exact h
  · rw [List.map_append]
    refine List.Nodup.append h (by simp) ?_
    intro x hx hx'
    simp only [List.map_cons, List.map_nil, List.mem_singleton] at hx'
    rename_i hcond
    rw [Bool.not_eq_true, List.any_eq_false] at hcond
    obtain ⟨p, hp, rfl⟩ := List.mem_map.mp hx
    exact absurd (by simp [hx']) (hcond p hp)

theorem hasKey_setParam {l : List (String × PVal)} {k k' : String} (v : PVal) (hne : k' ≠ k) :
    hasKey (setParam l k v) k' = hasKey l k' := by
  unfold setParam hasKey
  split
  · rw [List.any_map]
    have : ((fun p : String × PVal => p.1 == k') ∘ fun p => if p.1 == k then (k, v) else p)
        = fun p : String × PVal => p.1 == k' := by
      funext p
      by_cases hp : p.1 = k
      · simp [hp, Function.comp]
      · simp [hp, Function.comp]
    rw [this]
  · rw [List.any_append]
    simp [beq_eq_false_iff_ne, Ne.symm hne]

theorem hasKey_sortParams (l : List (String × PVal)) (k : String) :
    hasKey (sortParams l) k = hasKey l k :=
  perm_any (List.perm_insertionSort keyLe l) _

theorem setParam_of_not_mem {l : List (String × PVal)} {k : String} (v : PVal)
    (h : hasKey l k = false) : setParam l k v = l ++ [(k, v)] := by
  unfold setParam
  unfold hasKey at h
  rw [if_neg (by rw [h]; exact Bool.false_ne_true)]

theorem setParam_ne_nil (l : List (String × PVal)) (k : String) (v : PVal) :
    setParam l k v ≠ [] := by
  unfold setParam
  split
  · rename_i hcond
    cases l with
    | nil => simp at hcond
    | cons a l => simp
  · simp

theorem sortParams_ne_nil {l : List (String × PVal)} (h : l ≠ []) : sortParams l ≠ [] := by
  intro hn
  have hlen := (List.perm_insertionSort keyLe l).length_eq
  rw [show sortParams l = List.insertionSort keyLe l from rfl] at hn
  rw [hn] at hlen
  exact h (List.length_eq_zero.mp hlen.symm)

theorem sorted_keyLt {l : List (String × PVal)} (hs : List.Sorted keyLe l)
    (hnd : (l.map Prod.fst).Nodup) :
    List.Sorted (fun a b : String × PVal => a.1 < b.1) l := by
  have hne : l.Pairwise (fun a b : String × PVal => a.1 ≠ b.1) := List.pairwise_map.mp hnd
  exact hs.imp₂ (fun a b hle hne' => lt_of_le_of_ne hle hne') hne

theorem sortParams_eq_of_perm {l₁ l₂ : List (String × PVal)} (hp : l₁.Perm l₂)
    (hnd : (l₁.map Prod.fst).Nodup) : sortParams l₁ = sortParams l₂ := by
  haveI : IsAntisymm (String × PVal) (fun a b => a.1 < b.1) :=
    ⟨fun a b h₁ h₂ => (lt_asymm h₁ h₂).elim⟩
  have hnd₁ : ((sortParams l₁).map Prod.fst).Nodup :=
    (((List.perm_insertionSort keyLe l₁).map Prod.fst).nodup_iff).mpr hnd
  have hnd₂ : ((sortParams l₂).map Prod.fst).Nodup := by
    refine (((List.perm_insertionSort keyLe l₂).map Prod.fst).nodup_iff).mpr ?_
    exact ((hp.map Prod.fst).nodup_iff).mp hnd
  refine List.eq_of_perm_of_sorted (r := fun a b : String × PVal => a.1 < b.1) ?_ ?_ ?_
  · exact (List.perm_insertionSort keyLe l₁).trans
      (hp.trans (List.perm_insertionSort keyLe l₂).symm)
  · exact sorted_keyLt (List.sorted_insertionSort keyLe l₁) hnd₁
  · exact sorted_keyLt (List.sorted_insertionSort keyLe l₂) hnd₂

theorem urlencode_append {l : List (String × PVal)} (p : String × PVal) (h : l ≠ []) :
    urlencode (l ++ [p]) = urlencode l ++ "&" ++ encodePair p := by
  induction l with
  | nil => exact absurd rfl h
  | cons a l ih =>
    cases l with
    | nil => rfl
    | cons b l' =>
      have hstep : urlencode ((a :: b :: l') ++ [p])
          = encodePair a ++ "&" ++ urlencode ((b :: l') ++ [p]) := rfl
      rw [hstep, ih (by simp)]
      simp [urlencode, String.append_assoc]

/-! ### Helper lemmas about the paginator -/

theorem ceilDiv_succ {d sp : Nat} (hd : 1 ≤ d) (hsp : 1 ≤ sp) :
    (d + sp - 1) / sp = (d - sp + sp - 1) / sp + 1 := by
  rcases le_or_lt d sp with hle | hlt
  · have e1 : d + sp - 1 = (d - 1) + sp := by omega
    have e2 : d - sp + sp - 1 = sp - 1 := by omega
    rw [e1, e2, Nat.add_div_right _ (by omega), Nat.div_eq_of_lt (by omega),
      Nat.div_eq_of_lt (by omega)]
  · have e1 : d + sp - 1 = (d - sp + sp - 1) + sp := by omega
    rw [e1, Nat.add_div_right _ (by omega)]

theorem numChunks_of_le {span e cur : Int} (h : e ≤ cur) : numChunks span e cur = 0 := by
  unfold numChunks
  split
  · have h0 : (e - cur).toNat = 0 := by omega
    rw [h0, Nat.zero_add]
    exact Nat.div_eq_of_lt (by omega)
  · rfl

theorem numChunks_succ {span e cur : Int} (hspan : 0 < span) (h : cur < e) :
    numChunks span e cur = numChunks span e (cur + span) + 1 := by
  unfold numChunks
  rw [if_pos hspan, if_pos hspan]
  have h3 : (e - (cur + span)).toNat = (e - cur).toNat - span.toNat := by omega
  rw [h3]
  exact ceilDiv_succ (by omega) (by omega)

theorem chunkSpec_of_le {span e cur : Int} (h : e ≤ cur) : chunkSpec span e cur = [] := by
  unfold chunkSpec
  rw [numChunks_of_le h]
  rfl

theorem chunkSpec_length (span e cur : Int) :
    (chunkSpec span e cur).length = numChunks span e cur := by
  unfold chunkSpec
  rw [List.length_map, List.length_range]

theorem chunkSpec_cons {span e cur : Int} (hspan : 0 < span) (h : cur < e) :
    chunkSpec span e cur
      = (cur, min (cur + span) e) :: chunkSpec span e (cur + span) := by
  unfold chunkSpec
  rw [numChunks_succ hspan h, List.range_succ_eq_map, List.map_cons, List.map_map]
  refine congrArg₂ (· :: ·) ?_ ?_
  · norm_num
  · refine List.map_congr_left ?_
    intro i _
    simp only [Function.comp]
    refine congrArg₂ Prod.mk ?_ (congrArg₂ min ?_ rfl)
    · push_cast
      ring
    · push_cast
      ring

theorem fetchLoop_eq {R : Type} (f : Int → Int → Option (Page R)) (span e : Int)
    (hspan : 0 < span) :
    ∀ (fuel : Nat) (cur : Int) (acc : List R) (trace : List (Int × Int)) (warns : Nat),
      (e - cur).toNat ≤ fuel →
      fetchLoop f span e fuel cur acc trace warns
        = some (acc ++ chunkRecords f span e cur, trace ++ chunkSpec span e cur,
            warns + chunkWarns f span e cur) := by
  intro fuel
  induction fuel with
  | zero =>
    intro cur acc trace warns hfuel
    have hce : e ≤ cur := by omega
    unfold fetchLoop
    rw [if_neg (by omega), chunkSpec_of_le hce]
    simp [chunkRecords, chunkWarns, chunkSpec_of_le hce]
  | succ fuel ih =>
    intro cur acc trace warns hfuel
    by_cases hc : cur < e
    · have hrec := ih (cur + span) (acc ++ (processResponse
        (f (usToMs cur) (usToMs (min (cur + span) e)))).1)
        (trace ++ [(cur, min (cur + span) e)])
        (warns + (if (processResponse (f (usToMs cur) (usToMs (min (cur + span) e)))).2
          then 1 else 0)) (by omega)
      unfold fetchLoop
      rw [if_pos hc]
      rw [hrec]
      rw [chunkSpec_cons hspan hc]
      unfold chunkRecords chunkWarns
      rw [chunkSpec_cons hspan hc]
      simp only [List.flatMap_cons, List.filter_cons, List.append_assoc, List.cons_append,
        List.nil_append, List.length_cons]
      refine congrArg some (congrArg₂ Prod.mk rfl (congrArg₂ Prod.mk rfl ?_))
      split
      · simp only [List.length_cons]
        omega
      · omega
    · unfold fetchLoop
      rw [if_neg hc]
      have hce : e ≤ cur := by omega
      rw [chunkSpec_of_le hce]
      simp [chunkRecords, chunkWarns, chunkSpec_of_le hce]

theorem span_pos {maxDays : Int} (h : 1 ≤ maxDays) : 0 < maxDays * dayUs :=
  mul_pos (by omega) (by norm_num [dayUs])

theorem fetchHistoricalData_eq {R : Type} (f : Int → Int → Option (Page R))
    (maxDays s e : Int) (h : 1 ≤ maxDays) :
    fetchHistoricalData f maxDays s e
      = some (chunkRecords f (maxDays * dayUs) e s, chunkSpec (maxDays * dayUs) e s,
          chunkWarns f (maxDays * dayUs) e s) := by
  unfold fetchHistoricalData
  rw [fetchLoop_eq f (maxDays * dayUs) e (span_pos h) (e - s).toNat s [] [] 0 le_rfl]
  simp

theorem hasKey_append (l₁ l₂ : List (String × PVal)) (k : String) :
    hasKey (l₁ ++ l₂) k = (hasKey l₁ k || hasKey l₂ k) :=
  List.any_append

theorem hasKey_cons (a : String × PVal) (l : List (String × PVal)) (k : String) :
    hasKey (a :: l) k = ((a.1 == k) || hasKey l k) :=
  List.any_cons

theorem hasKey_nil (k : String) : hasKey [] k = false := rfl

theorem hasKey_optInt (k₀ k : String) (v : Option Int) :
    hasKey (optInt k₀ v) k = ((k₀ == k) && intTruthy v) := by
  cases v with
  | none => simp [optInt, intTruthy, hasKey]
  | some i =>
    by_cases hi : i = 0
    · simp [optInt, intTruthy, hasKey, hi]
    · simp [optInt, intTruthy, hasKey, hi]

theorem hasKey_optStr (k₀ k : String) (v : Option String) :
    hasKey (optStr k₀ v) k = ((k₀ == k) && strTruthy v) := by
  cases v with
  | none => simp [optStr, strTruthy, hasKey]
  | some s =>
    cases hv : s.isEmpty <;> simp [optStr, strTruthy, hasKey, hv]

/-! ### The claims -/

/-- Claim C1: for every parameter mapping (without a caller-supplied
`signature` key, so that the signature is genuinely appended), the
HMAC-SHA256 signature appended by `_send_request` is computed over exactly
the byte sequence that is transmitted: the canonical query string that is
signed (`signedQueryString`, the lexicographically sorted URL-encoded
parameters including the injected timestamp) is bit-for-bit the prefix of
the transmitted URL's query string preceding the appended `signature`
parameter, in the same parameter order and encoding. -/
theorem c1_signature_signs_transmitted_bytes (hmacHex : String → String → String)
    (secret endpoint : String) (nowMs : Int) (params : List (String × PVal))
    (h : hasKey params "signature" = false) :
    requestUrl hmacHex secret endpoint nowMs params
      = baseUrl ++ endpoint ++ "?" ++ signedQueryString nowMs params
        ++ "&signature=" ++ quotePlus (hmacHex secret (signedQueryString nowMs params)) := by
  have h1 : hasKey (setParam params "timestamp" (.i nowMs)) "signature" = false := by
    rw [hasKey_setParam _ (by decide)]
    exact h
  have h2 : hasKey (sortParams (setParam params "timestamp" (.i nowMs))) "signature" = false := by
    rw [hasKey_sortParams]
    exact h1
  have h4 : sortParams (setParam params "timestamp" (.i nowMs)) ≠ [] :=
    sortParams_ne_nil (setParam_ne_nil _ _ _)
  have h5 : quotePlus "signature" = "signature" := by decide
  simp only [requestUrl, sendRequestPrepared]
  rw [setParam_of_not_mem _ h2, urlencode_append _ h4]
  simp only [encodePair, pyStr, generateSignature, signedQueryString, h5]
  have hjoin : ∀ x : String, "&" ++ ("signature" ++ ("=" ++ x)) = "&signature=" ++ x := by
    intro x
    rw [← String.append_assoc, ← String.append_assoc]
    rfl
  simp only [String.append_assoc]
  rw [hjoin]

/-- Witness for C1 at a concrete mapping, secret and clock reading. -/
theorem c1_witness :
    hasKey [("coin", PVal.s "BTC")] "signature" = false ∧
    requestUrl (fun _ _ => "0a1b2c") "topsecret" "/api/v3/account" 1700000000000
        [("coin", PVal.s "BTC")]
      = baseUrl ++ "/api/v3/account" ++ "?"
        ++ signedQueryString 1700000000000 [("coin", PVal.s "BTC")]
        ++ "&signature=" ++ quotePlus ((fun _ _ => "0a1b2c") "topsecret"
            (signedQueryString 1700000000000 [("coin", PVal.s "BTC")])) :=
  ⟨by decide, c1_signature_signs_transmitted_bytes (fun _ _ => "0a1b2c") "topsecret"
    "/api/v3/account" 1700000000000 [("coin", PVal.s "BTC")] (by decide)⟩

/-- Claim C2: for any two parameter mappings containing the same key-value
pairs in different insertion orders (same distinct keys, as in any Python
dict) and the same injected timestamp, `_send_request` produces
byte-identical signed query strings, and hence identical signatures and
URLs: the signing pipeline is order-independent because parameters are
sorted lexicographically by key before encoding and signing. -/
theorem c2_order_independence (hmacHex : String → String → String)
    (secret endpoint : String) (nowMs : Int) (params₁ params₂ : List (String × PVal))
    (hperm : params₁.Perm params₂) (hnodup : (params₁.map Prod.fst).Nodup) :
    signedQueryString nowMs params₁ = signedQueryString nowMs params₂ ∧
    sendRequestPrepared hmacHex secret nowMs params₁
      = sendRequestPrepared hmacHex secret nowMs params₂ ∧
    requestUrl hmacHex secret endpoint nowMs params₁
      = requestUrl hmacHex secret endpoint nowMs params₂ := by
  have hcore : sortParams (setParam params₁ "timestamp" (.i nowMs))
      = sortParams (setParam params₂ "timestamp" (.i nowMs)) :=
    sortParams_eq_of_perm (setParam_perm hperm _ _) (nodupKeys_setParam _ _ hnodup)
  refine ⟨?_, ?_, ?_⟩
  · simp only [signedQueryString]
    rw [hcore]
  · simp only [sendRequestPrepared]
    rw [hcore]
  · simp only [requestUrl, sendRequestPrepared]
    rw [hcore]

/-- Witness for C2 at two concrete two-key mappings in swapped orders. -/
theorem c2_witness :
    ([("b", PVal.i 2), ("a", PVal.s "x")].Perm [("a", PVal.s "x"), ("b", PVal.i 2)]) ∧
    (([("b", PVal.i 2), ("a", PVal.s "x")] : List (String × PVal)).map Prod.fst).Nodup ∧
    signedQueryString 99 [("b", PVal.i 2), ("a", PVal.s "x")]
      = signedQueryString 99 [("a", PVal.s "x"), ("b", PVal.i 2)] :=
  ⟨List.Perm.swap _ _ _, by decide,
    (c2_order_independence (fun _ _ => "h") "k" "/e" 99 _ _ (List.Perm.swap _ _ _)
      (by decide)).1⟩

/-- Claim C6: for every request issued by `_send_request`, a non-2xx HTTP
status or any other transport-level exception is handled at the call site:
the failure is logged (`Bool` component `true`) and the call returns the
explicit absent value `none` instead of raising, so no unhandled fault
propagates to the caller; a forced non-2xx response yields no data, not an
exception. -/
theorem c6_transport_failure_yields_none {J : Type} (transport : String → HttpOutcome J)
    (hmacHex : String → String → String) (secret endpoint : String) (nowMs : Int)
    (params : List (String × PVal))
    (h : transport (requestUrl hmacHex secret endpoint nowMs params) = HttpOutcome.httpError
      ∨ transport (requestUrl hmacHex secret endpoint nowMs params) = HttpOutcome.exn) :
    sendRequest transport hmacHex secret endpoint nowMs params = (none, true) := by
  unfold sendRequest
  rcases h with h | h <;> rw [h] <;> rfl

/-- Witness for C6 with a transport forced to return a non-2xx status. -/
theorem c6_witness :
    ((fun _ : String => (HttpOutcome.httpError : HttpOutcome Unit))
        (requestUrl (fun _ _ => "sig") "sec" "/api/v3/account" 0 []) = HttpOutcome.httpError
      ∨ (fun _ : String => (HttpOutcome.httpError : HttpOutcome Unit))
        (requestUrl (fun _ _ => "sig") "sec" "/api/v3/account" 0 []) = HttpOutcome.exn) ∧
    sendRequest (fun _ : String => (HttpOutcome.httpError : HttpOutcome Unit))
      (fun _ _ => "sig") "sec" "/api/v3/account" 0 [] = (none, true) :=
  ⟨Or.inl rfl, c6_transport_failure_yields_none _ (fun _ _ => "sig") "sec" "/api/v3/account"
    0 [] (Or.inl rfl)⟩

/-- Claim C7 counterexample: the caller-supplied parameter mapping is NOT
left unchanged by `_send_request`: `params['timestamp'] = ...` executes on
the caller's dict, so after the call the mapping `{"coin": "BTC"}` has
gained a `timestamp` entry. -/
theorem c7_counterexample :
    callerParamsAfter 1700000000000 [("coin", PVal.s "BTC")] ≠ [("coin", PVal.s "BTC")] := by
  decide

/-- Claim C7 as amended: `_send_request` mutates the caller-supplied
mapping exactly by writing the injected `timestamp` entry into it (appended
when the key was absent); the `signature` entry is added only to the
internal sorted copy, so no key other than `timestamp` is added to or
removed from the caller's mapping. -/
theorem c7_timestamp_only_mutation (nowMs : Int) (params : List (String × PVal))
    (h : hasKey params "timestamp" = false) :
    callerParamsAfter nowMs params = params ++ [("timestamp", PVal.i nowMs)] ∧
    ∀ k : String, k ≠ "timestamp" →
      hasKey (callerParamsAfter nowMs params) k = hasKey params k := by
  constructor
  · exact setParam_of_not_mem _ h
  · intro k hk
    exact hasKey_setParam _ hk

/-- Witness for the amended C7 at a concrete mapping. -/
theorem c7_witness :
    hasKey [("coin", PVal.s "BTC")] "timestamp" = false ∧
    callerParamsAfter 1700000000000 [("coin", PVal.s "BTC")]
      = [("coin", PVal.s "BTC")] ++ [("timestamp", PVal.i 1700000000000)] :=
  ⟨by decide, (c7_timestamp_only_mutation 1700000000000 [("coin", PVal.s "BTC")] (by decide)).1⟩

/-- Claim C9: every endpoint wrapper omits from the outgoing request any
optional parameter whose value is falsy: each optional key is present in
the built params dict exactly when its argument is truthy, so
`start_time=0`, `end_time=0` or `coin=""` send no `startTime`/`endTime`/
`coin` parameter at all. -/
theorem c9_falsy_optional_params_omitted :
    ∀ (coin fromAcct toAcct : Option String) (st et : Option Int) (symbol : String)
      (limit : Int),
      hasKey (getDepositHistoryParams coin st et) "coin" = strTruthy coin ∧
      hasKey (getDepositHistoryParams coin st et) "startTime" = intTruthy st ∧
      hasKey (getDepositHistoryParams coin st et) "endTime" = intTruthy et ∧
      hasKey (getWithdrawalHistoryParams coin st et) "coin" = strTruthy coin ∧
      hasKey (getWithdrawalHistoryParams coin st et) "startTime" = intTruthy st ∧
      hasKey (getWithdrawalHistoryParams coin st et) "endTime" = intTruthy et ∧
      hasKey (getUniversalTransferHistoryParams st et fromAcct toAcct) "startTime"
        = intTruthy st ∧
      hasKey (getUniversalTransferHistoryParams st et fromAcct toAcct) "endTime"
        = intTruthy et ∧
      hasKey (getAllOrdersParams symbol st et limit) "startTime" = intTruthy st ∧
      hasKey (getAllOrdersParams symbol st et limit) "endTime" = intTruthy et := by
  intro coin fromAcct toAcct st et symbol limit
  refine ⟨?_, ?_, ?_, ?_, ?_, ?_, ?_, ?_, ?_, ?_⟩ <;>
    simp [getDepositHistoryParams, getWithdrawalHistoryParams,
      getUniversalTransferHistoryParams, getAllOrdersParams, hasKey_append,
      hasKey_optInt, hasKey_optStr, hasKey_cons, hasKey_nil]

/-- Claim C3: for every `start_date < end_date` and `max_days_per_request
> 0`, `fetch_historical_data` invokes the fetch operation exactly
`⌈(end_date - start_date) / max_span⌉` times (the ceiling division written
here in `Nat` as `(d + sp - 1) / sp`); the witness instantiates the 90-day
window with a 7-day chunk limit, giving exactly 13 calls. -/
theorem c3_chunk_call_count {R : Type} (f : Int → Int → Option (Page R))
    (maxDays s e : Int) (_h1 : s < e) (h2 : 1 ≤ maxDays) :
    ∃ res trace warns,
      fetchHistoricalData f maxDays s e = some (res, trace, warns) ∧
      trace.length
        = ((e - s).toNat + (maxDays * dayUs).toNat - 1) / (maxDays * dayUs).toNat := by
  refine ⟨_, _, _, fetchHistoricalData_eq f maxDays s e h2, ?_⟩
  rw [chunkSpec_length]
  unfold numChunks
  rw [if_pos (span_pos h2)]

/-- Witness for C3: a 90-day window with a 7-day limit issues 13 calls. -/
theorem c3_witness :
    (0 : Int) < 90 * dayUs ∧ (1 : Int) ≤ 7 ∧
    ∃ res trace warns,
      fetchHistoricalData (fun _ _ => (none : Option (Page Unit))) 7 0 (90 * dayUs)
        = some (res, trace, warns) ∧ trace.length = 13 := by
  refine ⟨by norm_num [dayUs], by norm_num, ?_⟩
  obtain ⟨res, trace, warns, heq, hlen⟩ :=
    c3_chunk_call_count (fun _ _ => (none : Option (Page Unit))) 7 0 (90 * dayUs)
      (by norm_num [dayUs]) (by norm_num)
  refine ⟨res, trace, warns, heq, ?_⟩
  rw [hlen]
  decide

/-- Claim C4: for every `start_date` and `max_days_per_request > 0`, the
`i`-th chunk passed to the fetch operation (0-indexed, read off the
invocation trace) is `[start + i*max_span, min (start + (i+1)*max_span)
end)`: the cursor advances by exactly `max_span` each iteration regardless
of the width of the final (possibly shorter) chunk.  The witness
instantiates `start = 0`, `end = start + 20 days`, `max_span = 7 days`,
whose third chunk is `[14 days, 20 days)`. -/
theorem c4_chunk_boundaries {R : Type} (f : Int → Int → Option (Page R))
    (maxDays s e : Int) (h2 : 1 ≤ maxDays) :
    ∃ res warns,
      fetchHistoricalData f maxDays s e
        = some (res, chunkSpec (maxDays * dayUs) e s, warns) ∧
      ∀ i : Nat, i < (chunkSpec (maxDays * dayUs) e s).length →
        (chunkSpec (maxDays * dayUs) e s).getD i (0, 0)
          = (s + (i : Int) * (maxDays * dayUs),
             min (s + ((i : Int) + 1) * (maxDays * dayUs)) e) := by
  refine ⟨_, _, fetchHistoricalData_eq f maxDays s e h2, ?_⟩
  intro i hi
  rw [chunkSpec_length] at hi
  unfold chunkSpec
  rw [List.getD_eq_getElem?_getD, List.getElem?_map, List.getElem?_range hi]
  rfl

/-- Witness for C4: with a 20-day window and a 7-day limit there are 3
chunks and the third is `[14 days, 20 days)` in microseconds. -/
theorem c4_witness :
    (1 : Int) ≤ 7 ∧
    (∃ res warns,
      fetchHistoricalData (fun _ _ => (none : Option (Page Unit))) 7 0 (20 * dayUs)
        = some (res, chunkSpec (7 * dayUs) (20 * dayUs) 0, warns)) ∧
    (chunkSpec (7 * dayUs) (20 * dayUs) 0).length = 3 ∧
    (chunkSpec (7 * dayUs) (20 * dayUs) 0).getD 2 (0, 0)
      = (1209600000000, 1728000000000) := by
  obtain ⟨res, warns, heq, hidx⟩ :=
    c4_chunk_boundaries (fun _ _ => (none : Option (Page Unit))) 7 0 (20 * dayUs)
      (by norm_num)
  have hlen : (chunkSpec (7 * dayUs) (20 * dayUs) 0).length = 3 := by decide
  refine ⟨by norm_num, ⟨res, warns, heq⟩, hlen, ?_⟩
  have h := hidx 2 (by rw [hlen]; norm_num)
  rw [h]
  norm_num [dayUs, min_def]

/-- Claim C5 counterexample: an empty JSON object matches neither
recognized response shape (it has no `rows` list), yet it is skipped
WITHOUT a warning, because the truthiness guard `if response_data:` is
false for an empty dict; this refutes the claim that every response
matching neither shape is skipped with a warning. -/
theorem c5_counterexample :
    objGet ([] : List (String × JField Nat)) "rows" = none ∧
    processResponse (some (Page.obj ([] : List (String × JField Nat)))) = ([], false) :=
  ⟨rfl, rfl⟩

/-- Claim C5 as amended: a raw list response and an object with a `rows`
list containing the same records normalize to the same flattened record
sequence; an object matching neither recognized shape contributes zero
records and does not fail the overall fetch — it is skipped with a warning
when non-empty, while an empty object is skipped silently by the
truthiness guard; and the fetch as a whole always completes. -/
theorem c5_page_normalization :
    (∀ (R : Type) (rs : List R) (fs : List (String × JField R)),
      objGet fs "rows" = some (JField.arr rs) →
        (processResponse (some (Page.plist rs))).1 = rs ∧
        (processResponse (some (Page.obj fs))).1 = rs) ∧
    (∀ (R : Type) (fs : List (String × JField R)), fs ≠ [] →
      (∀ rs : List R, objGet fs "rows" ≠ some (JField.arr rs)) →
        processResponse (some (Page.obj fs)) = ([], true)) ∧
    (∀ R : Type,
      processResponse (some (Page.obj ([] : List (String × JField R)))) = ([], false)) ∧
    (∀ (R : Type) (f : Int → Int → Option (Page R)) (maxDays s e : Int), 1 ≤ maxDays →
      (fetchHistoricalData f maxDays s e).isSome = true) := by
  refine ⟨?_, ?_, ?_, ?_⟩
  · intro R rs fs h
    have hne : fs ≠ [] := by
      intro h0
      rw [h0] at h
      simp [objGet] at h
    have htruthy : pageTruthy (Page.obj fs) = true := by
      cases fs with
      | nil => exact absurd rfl hne
      | cons a l => rfl
    constructor
    · cases rs <;> simp [processResponse, pageTruthy]
    · simp [processResponse, htruthy, h]
  · intro R fs hne hnr
    have htruthy : pageTruthy (Page.obj fs) = true := by
      cases fs with
      | nil => exact absurd rfl hne
      | cons a l => rfl
    cases hg : objGet fs "rows" with
    | none => simp [processResponse, htruthy, hg]
    | some jf =>
      cases jf with
      | arr rs => exact absurd hg (hnr rs)
      | nonArr => simp [processResponse, htruthy, hg]
  · intro R
    rfl
  · intro R f maxDays s e h
    rw [fetchHistoricalData_eq f maxDays s e h]
    rfl

/-- Witness for the amended C5: the list `[7, 8]` and the object
`{"rows": [7, 8]}` normalize to the same records. -/
theorem c5_witness :
    objGet [("rows", JField.arr [7, 8])] "rows" = some (JField.arr ([7, 8] : List Nat)) ∧
    (processResponse (some (Page.plist ([7, 8] : List Nat)))).1 = [7, 8] ∧
    (processResponse (some (Page.obj [("rows", JField.arr ([7, 8] : List Nat))]))).1
      = [7, 8] := by
  obtain ⟨h1, h2⟩ := c5_page_normalization.1 Nat [7, 8] [("rows", JField.arr [7, 8])] rfl
  exact ⟨rfl, h1, h2⟩

/-- Claim C8: for every `start_date >= end_date`, `fetch_historical_data`
returns an empty sequence and invokes the fetch operation zero times (the
invocation trace is empty). -/
theorem c8_degenerate_range {R : Type} (f : Int → Int → Option (Page R))
    (maxDays s e : Int) (h : e ≤ s) :
    fetchHistoricalData f maxDays s e = some ([], [], 0) := by
  unfold fetchHistoricalData
  have h0 : (e - s).toNat = 0 := by omega
  rw [h0]
  unfold fetchLoop
  rw [if_neg (by omega)]

/-- Witness for C8 at `start = 1 day`, `end = 0`. -/
theorem c8_witness :
    (0 : Int) ≤ dayUs ∧
    fetchHistoricalData (fun _ _ => (none : Option (Page Unit))) 7 dayUs 0
      = some ([], [], 0) :=
  ⟨by norm_num [dayUs], c8_degenerate_range _ 7 dayUs 0 (by norm_num [dayUs])⟩

/-- Claim C10: `fetch_historical_data` terminates for every input with
`max_days_per_request ≥ 1` (the bounded-fuel loop reaches its exit
condition, so the result is `some`), because the cursor strictly increases
by a fixed positive timedelta each iteration; and the precondition is
necessary — with a zero stride the cursor never advances and no amount of
fuel makes the loop terminate while `cursor < end_date`. -/
theorem c10_termination :
    (∀ (R : Type) (f : Int → Int → Option (Page R)) (maxDays s e : Int), 1 ≤ maxDays →
      (fetchHistoricalData f maxDays s e).isSome = true) ∧
    (∀ (R : Type) (f : Int → Int → Option (Page R)) (e : Int) (fuel : Nat) (cur : Int)
      (acc : List R) (trace : List (Int × Int)) (warns : Nat), cur < e →
        fetchLoop f (0 * dayUs) e fuel cur acc trace warns = none) := by
  constructor
  · intro R f maxDays s e h
    rw [fetchHistoricalData_eq f maxDays s e h]
    rfl
  · intro R f e fuel
    induction fuel with
    | zero =>
      intro cur acc trace warns h
      unfold fetchLoop
      rw [if_pos h]
    | succ fuel ih =>
      intro cur acc trace warns h
      unfold fetchLoop
      rw [if_pos h]
      have h0 : cur + 0 * dayUs = cur := by
        rw [zero_mul, add_zero]
      rw [h0]
      exact ih _ _ _ _ h

/-- Witness for C10: a one-day stride over a one-day range terminates,
while a zero stride exhausts any amount of fuel. -/
theorem c10_witness :
    (1 : Int) ≤ 1 ∧
    (fetchHistoricalData (fun _ _ => (none : Option (Page Unit))) 1 0 dayUs).isSome = true ∧
    (0 : Int) < 1 ∧
    fetchLoop (fun _ _ => (none : Option (Page Unit))) (0 * dayUs) 1 3 0 [] [] 0 = none :=
  ⟨le_refl 1, c10_termination.1 Unit _ 1 0 dayUs (le_refl 1), by norm_num,
    c10_termination.2 Unit _ 1 3 0 [] [] 0 (by norm_num)⟩

end MexcClient
